import Mathlib

/-!
Verification of the geometry core of blitzcrop (src/blitzcrop.py).

The Python code is embedded shallowly: machine floats become real numbers,
Python integers become `Int`, float division by zero (a `ZeroDivisionError`)
and the `assert_same_type` failure (an `AssertionError`) become `Option`
results with `none` standing for the raised error.
-/

namespace Blitzcrop

/-- The coordinate space a `Point` is tagged with.  In the Python source the
tag is the concrete subclass (`CanvasPoint` or `ImagePoint`) of the abstract
base class `Point`. -/
inductive Space
  | canvas
  | image
  deriving DecidableEq

/-- Embeds the Python `Point` class hierarchy: coordinates `x`, `y` plus the
subclass tag. -/
structure Point where
  space : Space
  x : ℝ
  y : ℝ

/-- Constructor corresponding to `CanvasPoint(x, y)`. -/
def CanvasPoint (x y : ℝ) : Point := ⟨Space.canvas, x, y⟩

/-- Constructor corresponding to `ImagePoint(x, y)`. -/
def ImagePoint (x y : ℝ) : Point := ⟨Space.image, x, y⟩

/-- `Point.__eq__`: `type(self) == type(other) and self.x == other.x and
self.y == other.y`.  Total: equality comparison never raises. -/
def Point.eq (p q : Point) : Prop :=
  p.space = q.space ∧ p.x = q.x ∧ p.y = q.y

/-- `Point.__add__`: `assert_same_type` then componentwise sum; `none` models
the `AssertionError` raised on a space-tag mismatch. -/
def Point.add (p q : Point) : Option Point :=
  if p.space = q.space then some ⟨p.space, p.x + q.x, p.y + q.y⟩ else none

/-- `Point.__sub__`: `assert_same_type` then componentwise difference. -/
def Point.sub (p q : Point) : Option Point :=
  if p.space = q.space then some ⟨p.space, p.x - q.x, p.y - q.y⟩ else none

/-- `Point.__mul__` (and `__rmul__`): scaling by a factor, no tag check. -/
def Point.smul (p : Point) (factor : ℝ) : Point :=
  ⟨p.space, p.x * factor, p.y * factor⟩

/-- `Point.__abs__`: `(self.x**2 + self.y**2) ** 0.5`. -/
noncomputable def Point.abs (p : Point) : ℝ :=
  Real.sqrt (p.x ^ 2 + p.y ^ 2)

/-- `Point.middle_between`: `self + 0.5 * (other - self)`. -/
noncomputable def Point.middle_between (p other : Point) : Option Point :=
  (other.sub p).bind fun d => p.add (d.smul 0.5)

/-- `Point.central_inversion_through`: `2 * center - self`. -/
noncomputable def Point.central_inversion_through (p center : Point) : Option Point :=
  (center.smul 2).sub p

/-- `Point.project_to_circle_around`: `alpha = radius / abs(self - center)`
then `center + alpha * (self - center)`.  `none` models both the
`AssertionError` of a tag mismatch and the `ZeroDivisionError` raised when
`abs(self - center) == 0`. -/
noncomputable def Point.project_to_circle_around (p center : Point) (radius : ℝ) : Option Point :=
  (p.sub center).bind fun d =>
    if Point.abs d = 0 then none
    else center.add (d.smul (radius / Point.abs d))

/-- Python `math.copysign(a, b)`: the magnitude of `a` with the sign of `b`
(`b = 0.0` carries a positive sign bit). -/
noncomputable def copysign (a b : ℝ) : ℝ :=
  if b < 0 then -|a| else |a|

/-- `Point.rotation_angle`:
`-(atan(dy / dx) if dx != 0 else copysign(0.5 * pi, dy))` where
`dx, dy = other - self`. -/
noncomputable def Point.rotation_angle (p other : Point) : Option ℝ :=
  (other.sub p).map fun d =>
    -(if d.x ≠ 0 then Real.arctan (d.y / d.x) else copysign (0.5 * Real.pi) d.y)

/-- Embeds the Python `Rectangle` class: four corner points in fixed cyclic
order. -/
structure Rectangle where
  left_upper : Point
  right_upper : Point
  right_lower : Point
  left_lower : Point

/-- `Rectangle.containing_rectangle`: axis-aligned min/max bounding rectangle,
corners rebuilt with the space tag of `left_upper` (Python: `PointType =
type(self.left_upper)`). -/
noncomputable def Rectangle.containing_rectangle (r : Rectangle) : Rectangle :=
  let s := r.left_upper.space
  let mnx := min (min r.left_upper.x r.right_upper.x) (min r.right_lower.x r.left_lower.x)
  let mxx := max (max r.left_upper.x r.right_upper.x) (max r.right_lower.x r.left_lower.x)
  let mny := min (min r.left_upper.y r.right_upper.y) (min r.right_lower.y r.left_lower.y)
  let mxy := max (max r.left_upper.y r.right_upper.y) (max r.right_lower.y r.left_lower.y)
  ⟨⟨s, mnx, mny⟩, ⟨s, mxx, mny⟩, ⟨s, mxx, mxy⟩, ⟨s, mnx, mxy⟩⟩

/-- `Rectangle.rotation_angle`: `left_upper.rotation_angle(right_upper)`. -/
noncomputable def Rectangle.rotation_angle (r : Rectangle) : Option ℝ :=
  r.left_upper.rotation_angle r.right_upper

/-- `Rectangle.containing_rectangle_offsets`:
`(d_lower_y * sin(alpha), d_upper_y * cos(alpha))`. -/
noncomputable def Rectangle.containing_rectangle_offsets (r : Rectangle) : Option (ℝ × ℝ) :=
  r.rotation_angle.map fun alpha =>
    ((r.left_upper.y - r.left_lower.y) * Real.sin alpha,
     (r.right_upper.y - r.left_upper.y) * Real.cos alpha)

/-- Python `int()` applied to a (here exact, rational) float: truncation
toward zero. -/
def pyint (q : ℚ) : ℤ :=
  if 0 ≤ q then ⌊q⌋ else -⌊-q⌋

/-- `rescaled_image_size(canvas_width, canvas_height, image_width,
image_height)`: the letterbox fit.  All call sites pass integers; the float
divisions are embedded as exact rational arithmetic. -/
def rescaled_image_size (canvas_width canvas_height image_width image_height : ℤ) :
    ℤ × ℤ :=
  let ar : ℚ := (image_width : ℚ) / (image_height : ℚ)
  if (canvas_width : ℚ) / (canvas_height : ℚ) ≤ ar then
    (pyint (canvas_width : ℚ), pyint ((canvas_width : ℚ) / ar))
  else
    (pyint ((canvas_height : ℚ) * ar), pyint (canvas_height : ℚ))

/-- `CanvasPoint.to_image_coordinates` / `ImagePoint.to_image_coordinates`:
an `ImagePoint` is returned unchanged; a `CanvasPoint` is mapped by
subtracting the centering offset and rescaling.  `none` models the
`ZeroDivisionError` raised when the fitted size is zero. -/
noncomputable def Point.to_image_coordinates (p : Point) (cw ch w h : ℤ) : Option Point :=
  match p.space with
  | Space.image => some p
  | Space.canvas =>
    let s := rescaled_image_size cw ch w h
    let ix := Int.fdiv (cw - s.1) 2
    let iy := Int.fdiv (ch - s.2) 2
    if s.1 = 0 ∨ s.2 = 0 then none
    else some ⟨Space.image,
      (p.x - (ix : ℝ)) / (s.1 : ℝ) * (w : ℝ),
      (p.y - (iy : ℝ)) / (s.2 : ℝ) * (h : ℝ)⟩

/-- `Rectangle.to_image_rectangle`: maps all four corners to image
coordinates. -/
noncomputable def Rectangle.to_image_rectangle (r : Rectangle) (cw ch w h : ℤ) :
    Option Rectangle :=
  (r.left_upper.to_image_coordinates cw ch w h).bind fun a =>
  (r.right_upper.to_image_coordinates cw ch w h).bind fun b =>
  (r.right_lower.to_image_coordinates cw ch w h).bind fun c =>
  (r.left_lower.to_image_coordinates cw ch w h).map fun d =>
    ⟨a, b, c, d⟩

/-- `math.degrees`. -/
noncomputable def degrees (x : ℝ) : ℝ := x * 180 / Real.pi

/-- Modelled from the spec: the external image library (PIL) is out of scope
and specified only at its interface boundary (spec section 3 and 6) as an
opaque pixel grid with `width`, `height` and primitives `crop` and `rotate`.
Only the dimensions are tracked here. -/
structure Img where
  width : ℝ
  height : ℝ

/-- Modelled from the spec: the image primitive `crop(axis-aligned box) →
Image` returns the content of the box `(left, upper, right, lower)`, an image
of the box's size. -/
def Img.crop (_i : Img) (left upper right lower : ℝ) : Img :=
  ⟨right - left, lower - upper⟩

/-- Modelled from the spec: the image primitive `rotate(angle, expand=true)`,
"expanding the canvas to avoid clipping corners": the resulting size is that
of the bounding box of the rotated image (`angle` in degrees). -/
noncomputable def Img.rotate (i : Img) (angle : ℝ) : Img :=
  let theta := angle * Real.pi / 180
  ⟨|i.width * Real.cos theta| + |i.height * Real.sin theta|,
   |i.width * Real.sin theta| + |i.height * Real.cos theta|⟩

/-- `crop_rectangle(rectangle, image, canvas_width, canvas_height)`: crop the
axis-aligned containing box (mapped to image coordinates) out of the source
image, rotate it back upright, and trim the offsets (scaled from canvas to
image pixels, both by the width ratio `image.width / iw`, rounded up).  The
source image enters only through its integer dimensions. -/
noncomputable def crop_rectangle (rect : Rectangle)
    (image_width image_height : ℤ) (canvas_width canvas_height : ℤ) : Option Img :=
  (rect.containing_rectangle.to_image_rectangle
      canvas_width canvas_height image_width image_height).bind fun icr =>
  rect.rotation_angle.bind fun alpha =>
  rect.containing_rectangle_offsets.map fun o =>
    let cont := (Img.crop ⟨(image_width : ℝ), (image_height : ℝ)⟩
        icr.left_upper.x icr.left_upper.y
        icr.right_lower.x icr.right_lower.y).rotate (-degrees alpha)
    let s := rescaled_image_size canvas_width canvas_height image_width image_height
    let ow : ℤ := ⌈|o.1| * (image_width : ℝ) / ((s.1 : ℤ) : ℝ)⌉
    let oh : ℤ := ⌈|o.2| * (image_width : ℝ) / ((s.1 : ℤ) : ℝ)⌉
    cont.crop (ow : ℝ) (oh : ℝ) (cont.width - (ow : ℝ)) (cont.height - (oh : ℝ))

/-- The selection state owned by `CropCanvas`: the anchor `lu`, the opposite
corner `rl` and the current preview `selected_rectangle` (all `None`
initially).  The tkinter drawing handles (`circle`, `rectangle`, `projected`)
are display-only and not modelled. -/
structure CropCanvasState where
  lu : Option Point
  rl : Option Point
  selected_rectangle : Option Rectangle

/-- `CropCanvas.on_click`: if a `selected_rectangle` exists, generate the
`IMAGE_CROPPED_EVENT` synchronously (`when="now"`) — modelled as the emitted
first component, which carries the pre-reset rectangle — then clear the
selection state and anchor at the click position. -/
def on_click (s : CropCanvasState) (x y : ℝ) : Option Rectangle × CropCanvasState :=
  (s.selected_rectangle,
   { lu := some (CanvasPoint x y), rl := none, selected_rectangle := none })

/-- `CropCanvas.on_mousemove`: when both `lu` and `rl` are set, project the
move position onto the constraint circle (center `middle_between(lu, rl)`,
radius `abs(center - lu)`), invert through the center, and store the preview
rectangle `(lu, corner1, rl, corner2)`.  `none` models an uncaught exception
escaping the handler; when `lu` or `rl` is unset the selection state is
untouched. -/
noncomputable def on_mousemove (s : CropCanvasState) (x y : ℝ) : Option CropCanvasState :=
  match s.lu, s.rl with
  | some lu, some rl =>
    (lu.middle_between rl).bind fun center =>
    (center.sub lu).bind fun d =>
    ((CanvasPoint x y).project_to_circle_around center (Point.abs d)).bind fun c1 =>
    (c1.central_inversion_through center).map fun c2 =>
      { s with selected_rectangle := some ⟨lu, c1, rl, c2⟩ }
  | _, _ => some s

/-! ### Basic facts about `pyint` -/

theorem pyint_intCast (n : ℤ) : pyint (n : ℚ) = n := by
  unfold pyint
  split
  · simp
  · rw [← Int.cast_neg, Int.floor_intCast, neg_neg]

theorem pyint_eq_floor (q : ℚ) (h : 0 ≤ q) : pyint q = ⌊q⌋ :=
  if_pos h

/-! ### Claims about `Point` arithmetic -/

/-- C8: addition and subtraction of two `Point`s with different space tags
fail fast (the `assert_same_type` assertion, modelled as `none`); with equal
tags they succeed and return the componentwise result carrying that tag. -/
theorem point_add_sub_space_discipline (p q : Point) :
    (p.space ≠ q.space → p.add q = none ∧ p.sub q = none)
    ∧ (p.space = q.space →
        p.add q = some ⟨p.space, p.x + q.x, p.y + q.y⟩
        ∧ p.sub q = some ⟨p.space, p.x - q.x, p.y - q.y⟩) := by
  constructor
  · intro h
    constructor
    · simp [Point.add, h]
    · simp [Point.sub, h]
  · intro h
    constructor
    · simp [Point.add, h]
    · simp [Point.sub, h]

theorem point_add_sub_space_discipline_witness :
    (Point.add (CanvasPoint 1 2) (ImagePoint 1 2) = none
      ∧ Point.sub (CanvasPoint 1 2) (ImagePoint 1 2) = none)
    ∧ Point.add (CanvasPoint 1 2) (CanvasPoint 3 4)
        = some ⟨Space.canvas, 1 + 3, 2 + 4⟩ :=
  ⟨(point_add_sub_space_discipline (CanvasPoint 1 2) (ImagePoint 1 2)).1
      (by simp [CanvasPoint, ImagePoint]),
   ((point_add_sub_space_discipline (CanvasPoint 1 2) (CanvasPoint 3 4)).2 rfl).1⟩

/-- C9: `central_inversion_through(center)` returns `2·center − self` (with
the common space tag), and applying it twice returns the original point. -/
theorem central_inversion_through_involution (p c : Point) (h : p.space = c.space) :
    p.central_inversion_through c = some ⟨p.space, 2 * c.x - p.x, 2 * c.y - p.y⟩
    ∧ (p.central_inversion_through c).bind (fun q => q.central_inversion_through c)
        = some p := by
  obtain ⟨ps, px, py⟩ := p
  obtain ⟨cs, cx, cy⟩ := c
  simp only at h
  subst h
  constructor
  · simp [Point.central_inversion_through, Point.sub, Point.smul]
    constructor <;> ring
  · simp [Point.central_inversion_through, Point.sub, Point.smul]

theorem central_inversion_through_involution_witness :
    Point.central_inversion_through (CanvasPoint 1 2) (CanvasPoint 5 7)
        = some ⟨Space.canvas, 2 * 5 - 1, 2 * 7 - 2⟩
    ∧ (Point.central_inversion_through (CanvasPoint 1 2) (CanvasPoint 5 7)).bind
        (fun q => q.central_inversion_through (CanvasPoint 5 7))
        = some (CanvasPoint 1 2) :=
  central_inversion_through_involution (CanvasPoint 1 2) (CanvasPoint 5 7) rfl

/-- C10: equality between `Point`s of different spaces is `False` (it is a
total comparison, never an error — in contrast to `add`, which fails), even
with identical coordinates; same-space equality holds iff both coordinates
agree. -/
theorem point_eq_across_spaces (p q : Point) :
    (p.space ≠ q.space → ¬ Point.eq p q ∧ p.add q = none)
    ∧ (p.space = q.space → (Point.eq p q ↔ p.x = q.x ∧ p.y = q.y)) := by
  constructor
  · intro h
    exact ⟨fun he => h he.1, by simp [Point.add, h]⟩
  · intro h
    simp [Point.eq, h]

theorem point_eq_across_spaces_witness :
    (¬ Point.eq (CanvasPoint 1 2) (ImagePoint 1 2)
      ∧ Point.add (CanvasPoint 1 2) (ImagePoint 1 2) = none)
    ∧ (Point.eq (CanvasPoint 1 2) (CanvasPoint 1 2) ↔ (1 : ℝ) = 1 ∧ (2 : ℝ) = 2) :=
  ⟨(point_eq_across_spaces (CanvasPoint 1 2) (ImagePoint 1 2)).1
      (by simp [CanvasPoint, ImagePoint]),
   (point_eq_across_spaces (CanvasPoint 1 2) (CanvasPoint 1 2)).2 rfl⟩

/-! ### Claim about the letterbox fit -/

/-- C4: for positive canvas and image dimensions, the letterbox fit picks the
canvas-limited axis by aspect-ratio comparison (width-limited when the image
ratio is at least the canvas ratio, height-limited otherwise, the derived
dimension truncated to an integer), and the result satisfies `iw ≤ canvasW`,
`ih ≤ canvasH` with at least one dimension exactly equal to its canvas
bound. -/
theorem rescaled_image_size_letterbox (cw ch w h : ℤ)
    (hcw : 0 < cw) (hch : 0 < ch) (hw : 0 < w) (hh : 0 < h) :
    ((cw : ℚ) / (ch : ℚ) ≤ (w : ℚ) / (h : ℚ) →
      rescaled_image_size cw ch w h = (cw, pyint ((cw : ℚ) / ((w : ℚ) / (h : ℚ)))))
    ∧ (¬ (cw : ℚ) / (ch : ℚ) ≤ (w : ℚ) / (h : ℚ) →
      rescaled_image_size cw ch w h = (pyint ((ch : ℚ) * ((w : ℚ) / (h : ℚ))), ch))
    ∧ (rescaled_image_size cw ch w h).1 ≤ cw
    ∧ (rescaled_image_size cw ch w h).2 ≤ ch
    ∧ ((rescaled_image_size cw ch w h).1 = cw
        ∨ (rescaled_image_size cw ch w h).2 = ch) := by
  have hchq : (0 : ℚ) < (ch : ℚ) := by exact_mod_cast hch
  have hcwq : (0 : ℚ) < (cw : ℚ) := by exact_mod_cast hcw
  have har : (0 : ℚ) < (w : ℚ) / (h : ℚ) := by
    apply div_pos <;> exact_mod_cast (by assumption)
  by_cases hc : (cw : ℚ) / (ch : ℚ) ≤ (w : ℚ) / (h : ℚ)
  · have hval : rescaled_image_size cw ch w h
        = (pyint (cw : ℚ), pyint ((cw : ℚ) / ((w : ℚ) / (h : ℚ)))) := by
      simp only [rescaled_image_size, if_pos hc]
    have hle : (cw : ℚ) / ((w : ℚ) / (h : ℚ)) ≤ (ch : ℚ) := by
      rw [div_le_iff₀ har]
      calc (cw : ℚ) ≤ ((w : ℚ) / (h : ℚ)) * (ch : ℚ) := by
            rw [← div_le_iff₀ hchq] at *; linarith [mul_comm ((w : ℚ) / (h : ℚ)) (ch : ℚ), hc]
        _ = (ch : ℚ) * ((w : ℚ) / (h : ℚ)) := mul_comm _ _
    have hsnd : pyint ((cw : ℚ) / ((w : ℚ) / (h : ℚ))) ≤ ch := by
      rw [pyint_eq_floor _ (le_of_lt (div_pos hcwq har))]
      have := Int.floor_le_floor hle
      simpa using this
    refine ⟨fun _ => by rw [hval, pyint_intCast], fun hn => absurd hc hn, ?_, ?_, ?_⟩
    · rw [hval, pyint_intCast]
    · rw [hval]; exact hsnd
    · left; rw [hval, pyint_intCast]
  · have hval : rescaled_image_size cw ch w h
        = (pyint ((ch : ℚ) * ((w : ℚ) / (h : ℚ))), pyint (ch : ℚ)) := by
      simp only [rescaled_image_size, if_neg hc]
    have hlt : (ch : ℚ) * ((w : ℚ) / (h : ℚ)) < (cw : ℚ) := by
      push_neg at hc
      calc (ch : ℚ) * ((w : ℚ) / (h : ℚ)) < (ch : ℚ) * ((cw : ℚ) / (ch : ℚ)) := by
            exact mul_lt_mul_of_pos_left hc hchq
        _ = (cw : ℚ) := by field_simp
    have hfst : pyint ((ch : ℚ) * ((w : ℚ) / (h : ℚ))) ≤ cw := by
      rw [pyint_eq_floor _ (le_of_lt (mul_pos hchq har))]
      exact le_of_lt (Int.floor_lt.mpr hlt)
    refine ⟨fun hy => absurd hy hc, fun _ => by rw [hval, pyint_intCast], ?_, ?_, ?_⟩
    · rw [hval]; exact hfst
    · rw [hval, pyint_intCast]
    · right; rw [hval, pyint_intCast]

theorem rescaled_image_size_letterbox_witness :
    (rescaled_image_size 200 100 100 100).1 ≤ 200
    ∧ (rescaled_image_size 200 100 100 100).2 ≤ 100
    ∧ ((rescaled_image_size 200 100 100 100).1 = 200
        ∨ (rescaled_image_size 200 100 100 100).2 = 100) :=
  (rescaled_image_size_letterbox 200 100 100 100
    (by decide) (by decide) (by decide) (by decide)).2.2

/-! ### Claim about the circle projection -/

/-- C3: for `p ≠ center` (same space) and `radius ≥ 0`,
`project_to_circle_around` returns a point at distance exactly `radius` from
`center`, lying on the ray from `center` through `p`; for `p = center` it
fails (the `ZeroDivisionError`, modelled as `none`). -/
theorem project_to_circle_around_on_circle (p c : Point) (r : ℝ)
    (hs : p.space = c.space) (hr : 0 ≤ r) :
    (¬ (p.x = c.x ∧ p.y = c.y) →
      ∃ q, p.project_to_circle_around c r = some q
        ∧ Point.abs ⟨q.space, q.x - c.x, q.y - c.y⟩ = r
        ∧ ∃ t, 0 ≤ t ∧ q.x - c.x = (p.x - c.x) * t ∧ q.y - c.y = (p.y - c.y) * t)
    ∧ ((p.x = c.x ∧ p.y = c.y) → p.project_to_circle_around c r = none) := by
  obtain ⟨ps, px, py⟩ := p
  obtain ⟨cs, cx, cy⟩ := c
  simp only at hs hr ⊢
  subst hs
  constructor
  · intro hne
    have hS : 0 < (px - cx) ^ 2 + (py - cy) ^ 2 := by
      rcases not_and_or.mp hne with hx | hy
      · have h2 : (px - cx) ^ 2 ≠ 0 := pow_ne_zero 2 (sub_ne_zero.mpr hx)
        have h3 : 0 < (px - cx) ^ 2 := lt_of_le_of_ne (sq_nonneg _) (Ne.symm h2)
        nlinarith [sq_nonneg (py - cy)]
      · have h2 : (py - cy) ^ 2 ≠ 0 := pow_ne_zero 2 (sub_ne_zero.mpr hy)
        have h3 : 0 < (py - cy) ^ 2 := lt_of_le_of_ne (sq_nonneg _) (Ne.symm h2)
        nlinarith [sq_nonneg (px - cx)]
    set D := Real.sqrt ((px - cx) ^ 2 + (py - cy) ^ 2) with hD
    have hsq : D ^ 2 = (px - cx) ^ 2 + (py - cy) ^ 2 := Real.sq_sqrt hS.le
    have hs0 : D ≠ 0 := ne_of_gt (Real.sqrt_pos.mpr hS)
    have hval : Point.project_to_circle_around ⟨ps, px, py⟩ ⟨ps, cx, cy⟩ r
        = some ⟨ps, cx + (px - cx) * (r / D),
                cy + (py - cy) * (r / D)⟩ := by
      simp [Point.project_to_circle_around, Point.sub, Point.add, Point.smul,
        Point.abs, ← hD, hs0]
    refine ⟨_, hval, ?_, r / D, div_nonneg hr (Real.sqrt_nonneg _), by ring, by ring⟩
    simp only [Point.abs]
    have harg : (cx + (px - cx) * (r / D) - cx) ^ 2
        + (cy + (py - cy) * (r / D) - cy) ^ 2 = r ^ 2 := by
      have h1 : (cx + (px - cx) * (r / D) - cx) ^ 2
          + (cy + (py - cy) * (r / D) - cy) ^ 2
          = ((px - cx) ^ 2 + (py - cy) ^ 2) * r ^ 2 / D ^ 2 := by ring
      rw [h1, hsq, mul_comm, mul_div_assoc, div_self (ne_of_gt hS), mul_one]
    rw [harg]
    exact Real.sqrt_sq hr
  · rintro ⟨hx, hy⟩
    subst hx; subst hy
    simp [Point.project_to_circle_around, Point.sub, Point.abs]

theorem project_to_circle_around_on_circle_witness :
    ∃ q, (CanvasPoint 3 0).project_to_circle_around (CanvasPoint 0 0) 5 = some q
      ∧ Point.abs ⟨q.space, q.x - 0, q.y - 0⟩ = 5
      ∧ ∃ t, 0 ≤ t ∧ q.x - 0 = (3 - 0) * t ∧ q.y - 0 = (0 - 0) * t :=
  (project_to_circle_around_on_circle (CanvasPoint 3 0) (CanvasPoint 0 0) 5 rfl
    (by norm_num)).1 (by norm_num [CanvasPoint])

/-! ### Claims about the rotation angle -/

/-- The two-argument arctangent referenced by the specification (not by the
code, which uses the one-argument `atan`): `atan2Spec y x` is the angle of
the vector `(x, y)`, with values in `(−π, π]`. -/
noncomputable def atan2Spec (y x : ℝ) : ℝ :=
  if 0 < x then Real.arctan (y / x)
  else if x < 0 then
    (if 0 ≤ y then Real.arctan (y / x) + Real.pi else Real.arctan (y / x) - Real.pi)
  else (if 0 < y then Real.pi / 2 else if y < 0 then -(Real.pi / 2) else 0)

/-- Evaluation of `rotation_angle` on two canvas points. -/
theorem rotation_angle_canvas_eval (px py ox oy : ℝ) :
    (CanvasPoint px py).rotation_angle (CanvasPoint ox oy)
      = some (-(if ox - px ≠ 0 then Real.arctan ((oy - py) / (ox - px))
               else copysign (0.5 * Real.pi) (oy - py))) := by
  simp [Point.rotation_angle, Point.sub, CanvasPoint]

/-- C2 counterexample: at `p = (0, 0)`, `other = (−1, 1)` (so `dx = −1 < 0`)
the code returns `−atan(dy/dx) = π/4`, while `−atan2(dy, dx) = −3π/4`; the
claimed identity `rotation_angle = −atan2(dy, dx)` fails. -/
theorem rotation_angle_ne_neg_atan2 :
    (CanvasPoint 0 0).rotation_angle (CanvasPoint (-1) 1)
      ≠ some (-(atan2Spec (1 - 0) (-1 - 0))) := by
  have hval : (CanvasPoint 0 0).rotation_angle (CanvasPoint (-1) 1)
      = some (Real.pi / 4) := by
    rw [rotation_angle_canvas_eval]
    rw [if_pos (by norm_num : (-1 : ℝ) - 0 ≠ 0)]
    rw [show ((1 : ℝ) - 0) / (-1 - 0) = -1 by norm_num, Real.arctan_neg,
      Real.arctan_one, neg_neg]
  have hspec : atan2Spec (1 - 0) (-1 - 0) = 3 * Real.pi / 4 := by
    simp only [atan2Spec]
    rw [if_neg (by norm_num), if_pos (by norm_num), if_pos (by norm_num)]
    rw [show ((1 : ℝ) - 0) / (-1 - 0) = -1 by norm_num, Real.arctan_neg,
      Real.arctan_one]
    ring
  rw [hval, hspec]
  intro hcontra
  have h2 := Option.some.inj hcontra
  have hpi := Real.pi_pos
  linarith

/-- C2 amended: `rotation_angle` returns `−atan(dy/dx)` (the principal
branch); this agrees with `−atan2(dy, dx)` whenever `dx > 0`, and also when
`dx = 0` with `dy ≠ 0` (the `±π/2` vertical-line limit, sign opposite to
`dy`'s), but for `dx < 0` it differs from `−atan2(dy, dx)` by exactly `±π`;
the five listed examples hold. -/
theorem rotation_angle_amended (px py ox oy : ℝ) :
    ((0 < ox - px ∨ (ox - px = 0 ∧ oy - py ≠ 0)) →
      (CanvasPoint px py).rotation_angle (CanvasPoint ox oy)
        = some (-(atan2Spec (oy - py) (ox - px))))
    ∧ (ox - px < 0 →
      (CanvasPoint px py).rotation_angle (CanvasPoint ox oy)
        = some (-(atan2Spec (oy - py) (ox - px))
            + (if 0 ≤ oy - py then Real.pi else -Real.pi)))
    ∧ (CanvasPoint 100 100).rotation_angle (CanvasPoint 200 100) = some 0
    ∧ (CanvasPoint 100 100).rotation_angle (CanvasPoint 200 200)
        = some (-(Real.pi / 4))
    ∧ (CanvasPoint 100 100).rotation_angle (CanvasPoint 200 0) = some (Real.pi / 4)
    ∧ (CanvasPoint 100 100).rotation_angle (CanvasPoint 100 200)
        = some (-(Real.pi / 2))
    ∧ (CanvasPoint 100 100).rotation_angle (CanvasPoint 100 0)
        = some (Real.pi / 2) := by
  have habs : |0.5 * Real.pi| = 0.5 * Real.pi :=
    abs_of_nonneg (by positivity)
  refine ⟨?_, ?_, ?_, ?_, ?_, ?_, ?_⟩
  · rintro (hdx | ⟨hdx, hdy⟩)
    · rw [rotation_angle_canvas_eval, if_pos (ne_of_gt hdx)]
      simp only [atan2Spec, if_pos hdx]
    · rw [rotation_angle_canvas_eval, if_neg (by simpa using hdx), hdx]
      simp only [atan2Spec, lt_irrefl, if_false, copysign]
      rcases lt_or_gt_of_ne hdy with hneg | hpos
      · rw [if_pos hneg, if_neg (by linarith), if_pos hneg, habs]
        ring_nf
      · rw [if_neg (by linarith), if_pos hpos, habs]
        ring_nf
  · intro hdx
    rw [rotation_angle_canvas_eval, if_pos (ne_of_lt hdx)]
    simp only [atan2Spec, if_neg (asymm hdx), if_pos hdx]
    by_cases hdy : 0 ≤ oy - py
    · rw [if_pos hdy, if_pos hdy]
      ring
    · rw [if_neg hdy, if_neg hdy]
      ring
  · rw [rotation_angle_canvas_eval, if_pos (by norm_num : (200 : ℝ) - 100 ≠ 0)]
    norm_num
  · rw [rotation_angle_canvas_eval, if_pos (by norm_num : (200 : ℝ) - 100 ≠ 0)]
    rw [show ((200 : ℝ) - 100) / (200 - 100) = 1 by norm_num, Real.arctan_one]
  · rw [rotation_angle_canvas_eval, if_pos (by norm_num : (200 : ℝ) - 100 ≠ 0)]
    rw [show ((0 : ℝ) - 100) / (200 - 100) = -1 by norm_num, Real.arctan_neg,
      Real.arctan_one, neg_neg]
  · rw [rotation_angle_canvas_eval, if_neg (by norm_num), copysign,
      if_neg (by norm_num : ¬ (200 : ℝ) - 100 < 0), habs]
    ring
  · rw [rotation_angle_canvas_eval, if_neg (by norm_num), copysign,
      if_pos (by norm_num : (0 : ℝ) - 100 < 0), habs]
    ring

theorem rotation_angle_amended_witness :
    (CanvasPoint 0 0).rotation_angle (CanvasPoint 1 1)
      = some (-(atan2Spec (1 - 0) (1 - 0))) :=
  (rotation_angle_amended 0 0 1 1).1 (Or.inl (by norm_num))

/-! ### Claim C1: the Thales preview rectangle -/

/-- The dot product of the two edge vectors meeting at corner `q` of the
corner triple `p, q, r`; the interior angle at `q` is a right angle iff this
vanishes. -/
def edgeDot (p q r : Point) : ℝ :=
  (p.x - q.x) * (r.x - q.x) + (p.y - q.y) * (r.y - q.y)

/-- C1: from the `Previewing` state with anchor `lu ≠ rl`, a move event at
any position `m` distinct from the circle center `midpoint(lu, rl)` updates
the preview to the rectangle `(lu, corner1, rl, corner2)` whose four interior
angles are all exactly 90 degrees. -/
theorem preview_rectangle_right_angles (lux luy rlx rly mx my : ℝ)
    (sel : Option Rectangle)
    (hne : ¬ (lux = rlx ∧ luy = rly))
    (hm : ¬ (mx = (lux + rlx) / 2 ∧ my = (luy + rly) / 2)) :
    ∃ c1 c2 : Point,
      on_mousemove ⟨some (CanvasPoint lux luy), some (CanvasPoint rlx rly), sel⟩ mx my
        = some ⟨some (CanvasPoint lux luy), some (CanvasPoint rlx rly),
            some ⟨CanvasPoint lux luy, c1, CanvasPoint rlx rly, c2⟩⟩
      ∧ edgeDot c2 (CanvasPoint lux luy) c1 = 0
      ∧ edgeDot (CanvasPoint lux luy) c1 (CanvasPoint rlx rly) = 0
      ∧ edgeDot c1 (CanvasPoint rlx rly) c2 = 0
      ∧ edgeDot (CanvasPoint rlx rly) c2 (CanvasPoint lux luy) = 0 := by
  have hS : 0 < (mx - (lux + (rlx - lux) * 0.5)) ^ 2
      + (my - (luy + (rly - luy) * 0.5)) ^ 2 := by
    rcases not_and_or.mp hm with hx | hy
    · have hx0 : mx - (lux + (rlx - lux) * 0.5) ≠ 0 := by
        intro h0
        exact hx (by linarith)
      have h2 : (mx - (lux + (rlx - lux) * 0.5)) ^ 2 ≠ 0 := pow_ne_zero 2 hx0
      have h3 := lt_of_le_of_ne (sq_nonneg (mx - (lux + (rlx - lux) * 0.5))) (Ne.symm h2)
      nlinarith [sq_nonneg (my - (luy + (rly - luy) * 0.5))]
    · have hy0 : my - (luy + (rly - luy) * 0.5) ≠ 0 := by
        intro h0
        exact hy (by linarith)
      have h2 : (my - (luy + (rly - luy) * 0.5)) ^ 2 ≠ 0 := pow_ne_zero 2 hy0
      have h3 := lt_of_le_of_ne (sq_nonneg (my - (luy + (rly - luy) * 0.5))) (Ne.symm h2)
      nlinarith [sq_nonneg (mx - (lux + (rlx - lux) * 0.5))]
  have hD0 : Real.sqrt ((mx - (lux + (rlx - lux) * 0.5)) ^ 2
      + (my - (luy + (rly - luy) * 0.5)) ^ 2) ≠ 0 :=
    ne_of_gt (Real.sqrt_pos.mpr hS)
  have hD2 : Real.sqrt ((mx - (lux + (rlx - lux) * 0.5)) ^ 2
        + (my - (luy + (rly - luy) * 0.5)) ^ 2) ^ 2
      = (mx - (lux + (rlx - lux) * 0.5)) ^ 2
        + (my - (luy + (rly - luy) * 0.5)) ^ 2 := Real.sq_sqrt hS.le
  have hr2 : Real.sqrt ((lux + (rlx - lux) * 0.5 - lux) ^ 2
        + (luy + (rly - luy) * 0.5 - luy) ^ 2) ^ 2
      = (lux + (rlx - lux) * 0.5 - lux) ^ 2
        + (luy + (rly - luy) * 0.5 - luy) ^ 2 :=
    Real.sq_sqrt (by positivity)
  have hkey : (Real.sqrt ((lux + (rlx - lux) * 0.5 - lux) ^ 2
          + (luy + (rly - luy) * 0.5 - luy) ^ 2)
        / Real.sqrt ((mx - (lux + (rlx - lux) * 0.5)) ^ 2
          + (my - (luy + (rly - luy) * 0.5)) ^ 2)) ^ 2
        * ((mx - (lux + (rlx - lux) * 0.5)) ^ 2
          + (my - (luy + (rly - luy) * 0.5)) ^ 2)
      = (lux + (rlx - lux) * 0.5 - lux) ^ 2
        + (luy + (rly - luy) * 0.5 - luy) ^ 2 := by
    rw [div_pow, hD2, div_mul_cancel₀ _ (ne_of_gt hS), hr2]
  refine ⟨⟨Space.canvas,
      lux + (rlx - lux) * 0.5 + (mx - (lux + (rlx - lux) * 0.5))
        * (Real.sqrt ((lux + (rlx - lux) * 0.5 - lux) ^ 2
            + (luy + (rly - luy) * 0.5 - luy) ^ 2)
          / Real.sqrt ((mx - (lux + (rlx - lux) * 0.5)) ^ 2
            + (my - (luy + (rly - luy) * 0.5)) ^ 2)),
      luy + (rly - luy) * 0.5 + (my - (luy + (rly - luy) * 0.5))
        * (Real.sqrt ((lux + (rlx - lux) * 0.5 - lux) ^ 2
            + (luy + (rly - luy) * 0.5 - luy) ^ 2)
          / Real.sqrt ((mx - (lux + (rlx - lux) * 0.5)) ^ 2
            + (my - (luy + (rly - luy) * 0.5)) ^ 2))⟩,
    ⟨Space.canvas,
      (lux + (rlx - lux) * 0.5) * 2
        - (lux + (rlx - lux) * 0.5 + (mx - (lux + (rlx - lux) * 0.5))
          * (Real.sqrt ((lux + (rlx - lux) * 0.5 - lux) ^ 2
              + (luy + (rly - luy) * 0.5 - luy) ^ 2)
            / Real.sqrt ((mx - (lux + (rlx - lux) * 0.5)) ^ 2
              + (my - (luy + (rly - luy) * 0.5)) ^ 2))),
      (luy + (rly - luy) * 0.5) * 2
        - (luy + (rly - luy) * 0.5 + (my - (luy + (rly - luy) * 0.5))
          * (Real.sqrt ((lux + (rlx - lux) * 0.5 - lux) ^ 2
              + (luy + (rly - luy) * 0.5 - luy) ^ 2)
            / Real.sqrt ((mx - (lux + (rlx - lux) * 0.5)) ^ 2
              + (my - (luy + (rly - luy) * 0.5)) ^ 2)))⟩,
    ?_, ?_, ?_, ?_, ?_⟩
  · simp [on_mousemove, Point.middle_between, Point.sub, Point.add, Point.smul,
      Point.project_to_circle_around, Point.central_inversion_through, Point.abs,
      CanvasPoint, hD0]
  · simp only [edgeDot, CanvasPoint]
    linear_combination -hkey
  · simp only [edgeDot, CanvasPoint]
    linear_combination hkey
  · simp only [edgeDot, CanvasPoint]
    linear_combination -hkey
  · simp only [edgeDot, CanvasPoint]
    linear_combination hkey

theorem preview_rectangle_right_angles_witness :
    ∃ c1 c2 : Point,
      on_mousemove ⟨some (CanvasPoint 0 0), some (CanvasPoint 2 0), none⟩ 1 1
        = some ⟨some (CanvasPoint 0 0), some (CanvasPoint 2 0),
            some ⟨CanvasPoint 0 0, c1, CanvasPoint 2 0, c2⟩⟩
      ∧ edgeDot c2 (CanvasPoint 0 0) c1 = 0
      ∧ edgeDot (CanvasPoint 0 0) c1 (CanvasPoint 2 0) = 0
      ∧ edgeDot c1 (CanvasPoint 2 0) c2 = 0
      ∧ edgeDot (CanvasPoint 2 0) c2 (CanvasPoint 0 0) = 0 :=
  preview_rectangle_right_angles 0 0 2 0 1 1 none (by norm_num) (by norm_num)

/-! ### Claim C5: press finalizes the preview exactly once -/

/-- C5: a press event in a state holding a preview rectangle emits exactly
that rectangle (synchronously, carrying the pre-reset value), and leaves the
machine anchored at the press position with `rl` and the preview cleared; a
second press then emits nothing. -/
theorem on_click_emits_once (s : CropCanvasState) (R : Rectangle)
    (x y x2 y2 : ℝ) (h : s.selected_rectangle = some R) :
    (on_click s x y).1 = some R
    ∧ (on_click s x y).2
        = ⟨some (CanvasPoint x y), none, none⟩
    ∧ (on_click (on_click s x y).2 x2 y2).1 = none :=
  ⟨h, rfl, rfl⟩

theorem on_click_emits_once_witness :
    (on_click ⟨none, none,
        some ⟨CanvasPoint 0 0, CanvasPoint 1 0, CanvasPoint 1 1, CanvasPoint 0 1⟩⟩ 5 6).1
      = some ⟨CanvasPoint 0 0, CanvasPoint 1 0, CanvasPoint 1 1, CanvasPoint 0 1⟩
    ∧ (on_click ⟨none, none,
        some ⟨CanvasPoint 0 0, CanvasPoint 1 0, CanvasPoint 1 1, CanvasPoint 0 1⟩⟩ 5 6).2
      = ⟨some (CanvasPoint 5 6), none, none⟩
    ∧ (on_click (on_click ⟨none, none,
        some ⟨CanvasPoint 0 0, CanvasPoint 1 0, CanvasPoint 1 1, CanvasPoint 0 1⟩⟩ 5 6).2 7 8).1
      = none :=
  on_click_emits_once _ _ 5 6 7 8 rfl

/-! ### Claim C6: zero-radius constraint circle -/

/-- C6 counterexample: in the state with `lu = rl = (0, 0)` (a zero-radius
constraint circle), a move event at `(1, 0)` is not ignored: the handler
succeeds and installs a fully degenerate preview rectangle, changing the
state. -/
theorem on_mousemove_degenerate_not_ignored :
    on_mousemove ⟨some (CanvasPoint 0 0), some (CanvasPoint 0 0), none⟩ 1 0
      = some ⟨some (CanvasPoint 0 0), some (CanvasPoint 0 0),
          some ⟨CanvasPoint 0 0, CanvasPoint 0 0, CanvasPoint 0 0, CanvasPoint 0 0⟩⟩
    ∧ on_mousemove ⟨some (CanvasPoint 0 0), some (CanvasPoint 0 0), none⟩ 1 0
      ≠ some ⟨some (CanvasPoint 0 0), some (CanvasPoint 0 0), none⟩ := by
  have hval : on_mousemove ⟨some (CanvasPoint 0 0), some (CanvasPoint 0 0), none⟩ 1 0
      = some ⟨some (CanvasPoint 0 0), some (CanvasPoint 0 0),
          some ⟨CanvasPoint 0 0, CanvasPoint 0 0, CanvasPoint 0 0, CanvasPoint 0 0⟩⟩ := by
    simp [on_mousemove, Point.middle_between, Point.sub, Point.add, Point.smul,
      Point.project_to_circle_around, Point.central_inversion_through, Point.abs,
      CanvasPoint, Real.sqrt_one]
  refine ⟨hval, ?_⟩
  rw [hval]
  simp

/-- C6 amended: the code has no zero-radius guard.  With `lu = rl = p`, a
move at `m ≠ p` is not ignored: the handler succeeds and installs the fully
degenerate preview rectangle `(p, p, p, p)` (the projected corner collapses
onto the zero-radius circle's center), changing the state; a move at exactly
`m = p` raises an uncaught `ZeroDivisionError` (modelled as `none`). -/
theorem on_mousemove_degenerate_amended (px py mx my : ℝ) (sel : Option Rectangle) :
    (¬ (mx = px ∧ my = py) →
      on_mousemove ⟨some (CanvasPoint px py), some (CanvasPoint px py), sel⟩ mx my
        = some ⟨some (CanvasPoint px py), some (CanvasPoint px py),
            some ⟨CanvasPoint px py, CanvasPoint px py,
              CanvasPoint px py, CanvasPoint px py⟩⟩)
    ∧ on_mousemove ⟨some (CanvasPoint px py), some (CanvasPoint px py), sel⟩ px py
      = none := by
  constructor
  · intro hm
    have hS : 0 < (mx - px) ^ 2 + (my - py) ^ 2 := by
      rcases not_and_or.mp hm with hx | hy
      · have h2 : (mx - px) ^ 2 ≠ 0 := pow_ne_zero 2 (sub_ne_zero.mpr hx)
        have h3 := lt_of_le_of_ne (sq_nonneg (mx - px)) (Ne.symm h2)
        nlinarith [sq_nonneg (my - py)]
      · have h2 : (my - py) ^ 2 ≠ 0 := pow_ne_zero 2 (sub_ne_zero.mpr hy)
        have h3 := lt_of_le_of_ne (sq_nonneg (my - py)) (Ne.symm h2)
        nlinarith [sq_nonneg (mx - px)]
    have hD0 : Real.sqrt ((mx - px) ^ 2 + (my - py) ^ 2) ≠ 0 :=
      ne_of_gt (Real.sqrt_pos.mpr hS)
    simp [on_mousemove, Point.middle_between, Point.sub, Point.add, Point.smul,
      Point.project_to_circle_around, Point.central_inversion_through, Point.abs,
      CanvasPoint, hD0]
    constructor <;> ring
  · simp [on_mousemove, Point.middle_between, Point.sub, Point.add, Point.smul,
      Point.project_to_circle_around, Point.central_inversion_through, Point.abs,
      CanvasPoint]

theorem on_mousemove_degenerate_amended_witness :
    on_mousemove ⟨some (CanvasPoint 2 3), some (CanvasPoint 2 3), none⟩ 4 5
      = some ⟨some (CanvasPoint 2 3), some (CanvasPoint 2 3),
          some ⟨CanvasPoint 2 3, CanvasPoint 2 3, CanvasPoint 2 3, CanvasPoint 2 3⟩⟩ :=
  (on_mousemove_degenerate_amended 2 3 4 5 none).1 (by norm_num)

/-! ### Claim C7: degenerate crop regions -/

theorem rescaled_image_size_nonneg (cw ch w h : ℤ)
    (hcw : 0 < cw) (hch : 0 < ch) (hw : 0 < w) (hh : 0 < h) :
    0 ≤ (rescaled_image_size cw ch w h).1
    ∧ 0 ≤ (rescaled_image_size cw ch w h).2 := by
  have hchq : (0 : ℚ) < (ch : ℚ) := by exact_mod_cast hch
  have hcwq : (0 : ℚ) < (cw : ℚ) := by exact_mod_cast hcw
  have har : (0 : ℚ) < (w : ℚ) / (h : ℚ) := by
    apply div_pos <;> exact_mod_cast (by assumption)
  by_cases hc : (cw : ℚ) / (ch : ℚ) ≤ (w : ℚ) / (h : ℚ)
  · simp only [rescaled_image_size, if_pos hc]
    constructor
    · rw [pyint_intCast]
      exact hcw.le
    · rw [pyint_eq_floor _ (le_of_lt (div_pos hcwq har))]
      exact Int.floor_nonneg.mpr (le_of_lt (div_pos hcwq har))
  · simp only [rescaled_image_size, if_neg hc]
    constructor
    · rw [pyint_eq_floor _ (le_of_lt (mul_pos hchq har))]
      exact Int.floor_nonneg.mpr (le_of_lt (mul_pos hchq har))
    · rw [pyint_intCast]
      exact hch.le

/-- C7 counterexample: the fully degenerate selection at `(50, 50)` on a
100×100 canvas over a 100×100 image maps to a zero-width, zero-height image
region, yet `crop_rectangle` does not fail: it returns an (empty, zero-size)
image rather than no image. -/
theorem crop_rectangle_degenerate_returns_image :
    ((Rectangle.containing_rectangle
        ⟨CanvasPoint 50 50, CanvasPoint 50 50, CanvasPoint 50 50,
          CanvasPoint 50 50⟩).to_image_rectangle 100 100 100 100).map
      (fun icr => (icr.right_lower.x - icr.left_upper.x,
                   icr.right_lower.y - icr.left_upper.y))
      = some (0, 0)
    ∧ crop_rectangle
        ⟨CanvasPoint 50 50, CanvasPoint 50 50, CanvasPoint 50 50, CanvasPoint 50 50⟩
        100 100 100 100 = some ⟨0, 0⟩ := by
  have hres : rescaled_image_size 100 100 100 100 = (100, 100) := by
    norm_num [rescaled_image_size, pyint]
  constructor
  · norm_num [Rectangle.containing_rectangle, Rectangle.to_image_rectangle,
      Point.to_image_coordinates, CanvasPoint, hres, Int.zero_fdiv]
  · norm_num [crop_rectangle, Rectangle.containing_rectangle,
      Rectangle.to_image_rectangle, Point.to_image_coordinates,
      Rectangle.rotation_angle, Point.rotation_angle,
      Rectangle.containing_rectangle_offsets, Img.crop, Img.rotate, degrees,
      Point.sub, CanvasPoint, copysign, hres, Int.zero_fdiv]

/-- C7 amended: the mapped bounding box never has negative width or height
(the containing rectangle sorts coordinates and the canvas-to-image map is
monotone for positive dimensions); and `crop_rectangle` performs no
validation of degenerate regions at all: for every canvas-space selection —
those whose mapped region has zero width or zero height included — extraction
succeeds and returns an image rather than failing (for the fully collapsed
selection, a zero-size image: see the counterexample theorem). -/
theorem crop_region_amended (r : Rectangle) (icr : Rectangle)
    (cw ch w h : ℤ)
    (hcw : 0 < cw) (hch : 0 < ch) (hw : 0 < w) (hh : 0 < h)
    (hs : r.left_upper.space = Space.canvas)
    (hs' : r.right_upper.space = Space.canvas)
    (hicr : r.containing_rectangle.to_image_rectangle cw ch w h = some icr)
    (hs1 : (rescaled_image_size cw ch w h).1 ≠ 0)
    (hs2 : (rescaled_image_size cw ch w h).2 ≠ 0) :
    (0 ≤ icr.right_lower.x - icr.left_upper.x
      ∧ 0 ≤ icr.right_lower.y - icr.left_upper.y)
    ∧ ∃ img, crop_rectangle r w h cw ch = some img := by
  have hpos1 : 0 < (rescaled_image_size cw ch w h).1 :=
    lt_of_le_of_ne (rescaled_image_size_nonneg cw ch w h hcw hch hw hh).1
      (Ne.symm hs1)
  have hpos2 : 0 < (rescaled_image_size cw ch w h).2 :=
    lt_of_le_of_ne (rescaled_image_size_nonneg cw ch w h hcw hch hw hh).2
      (Ne.symm hs2)
  constructor
  · simp only [Rectangle.containing_rectangle, Rectangle.to_image_rectangle,
      Point.to_image_coordinates, hs, hs1, hs2, or_self, if_false,
      Option.some_bind, Option.map_some, Option.some.injEq] at hicr
    simp only [Option.map, Option.some.injEq] at hicr
    subst hicr
    have hwR : (0 : ℝ) < (w : ℝ) := by exact_mod_cast hw
    have hhR : (0 : ℝ) < (h : ℝ) := by exact_mod_cast hh
    have hs1R : (0 : ℝ) < ((rescaled_image_size cw ch w h).1 : ℝ) := by
      exact_mod_cast hpos1
    have hs2R : (0 : ℝ) < ((rescaled_image_size cw ch w h).2 : ℝ) := by
      exact_mod_cast hpos2
    have hmmx : min (min r.left_upper.x r.right_upper.x)
          (min r.right_lower.x r.left_lower.x)
        ≤ max (max r.left_upper.x r.right_upper.x)
          (max r.right_lower.x r.left_lower.x) :=
      le_trans (le_trans (min_le_left _ _) (min_le_left _ _))
        (le_trans (le_max_left _ _) (le_max_left _ _))
    have hmmy : min (min r.left_upper.y r.right_upper.y)
          (min r.right_lower.y r.left_lower.y)
        ≤ max (max r.left_upper.y r.right_upper.y)
          (max r.right_lower.y r.left_lower.y) :=
      le_trans (le_trans (min_le_left _ _) (min_le_left _ _))
        (le_trans (le_max_left _ _) (le_max_left _ _))
    constructor
    · dsimp only
      rw [sub_nonneg]
      exact mul_le_mul_of_nonneg_right
        (div_le_div_of_nonneg_right (sub_le_sub_right hmmx _) hs1R.le) hwR.le
    · dsimp only
      rw [sub_nonneg]
      exact mul_le_mul_of_nonneg_right
        (div_le_div_of_nonneg_right (sub_le_sub_right hmmy _) hs2R.le) hhR.le
  · simp [crop_rectangle, Rectangle.containing_rectangle,
      Rectangle.to_image_rectangle, Point.to_image_coordinates,
      Rectangle.rotation_angle, Point.rotation_angle,
      Rectangle.containing_rectangle_offsets, Point.sub,
      hs, hs', hs1, hs2]

theorem crop_region_amended_witness :
    ((0 : ℝ) ≤ (ImagePoint 0 100).x - (ImagePoint 0 0).x
      ∧ (0 : ℝ) ≤ (ImagePoint 0 100).y - (ImagePoint 0 0).y)
    ∧ ∃ img, crop_rectangle ⟨CanvasPoint 0 0, CanvasPoint 0 100,
        CanvasPoint 0 100, CanvasPoint 0 0⟩ 100 100 100 100 = some img :=
  crop_region_amended
    ⟨CanvasPoint 0 0, CanvasPoint 0 100, CanvasPoint 0 100, CanvasPoint 0 0⟩
    ⟨ImagePoint 0 0, ImagePoint 0 0, ImagePoint 0 100, ImagePoint 0 100⟩
    100 100 100 100
    (by norm_num) (by norm_num) (by norm_num) (by norm_num)
    rfl rfl
    (by norm_num [Rectangle.containing_rectangle, Rectangle.to_image_rectangle,
      Point.to_image_coordinates, CanvasPoint, ImagePoint, rescaled_image_size,
      pyint, min_def, max_def, Int.zero_fdiv])
    (by norm_num [rescaled_image_size, pyint])
    (by norm_num [rescaled_image_size, pyint])

end Blitzcrop
